import Mathlib

/-!
Shallow embedding of `src/generate_readme.py` (neofetch-style README generator).

Network I/O is modelled by explicit data: a GraphQL page response becomes a
record carrying `edges` and `pageInfo`; a REST response is `Option payload`
(`none` = non-200 status); the ambient current date (`datetime.today()`) is an
explicit `Date` argument; the per-user cache file is an association list
threaded through the functions that read and write it.  Python `dict.get`
with a default becomes `Option.getD`; Python string-truthiness tests on
optional configuration fields become `pyTruthy`.
-/

namespace GenReadme

/-! ### Dates and `calculate_uptime`

`calculate_uptime` uses `datetime.strptime`, `datetime.today()` and
`dateutil.relativedelta`.  Dates are year/month/day records; `relativedelta`
between two dates is embedded by its documented algorithm: take the raw
year*12+month difference, correct it by at most one step so that the shifted
date does not overshoot, normalise into years/months, and take the remaining
exact day difference. -/

structure Date where
  year : Int
  month : Nat
  day : Nat
deriving DecidableEq, Repr

def isLeapYear (y : Int) : Bool := y % 4 == 0 && (y % 100 != 0 || y % 400 == 0)

def daysInMonth (y : Int) (m : Nat) : Nat :=
  if m = 2 then (if isLeapYear y then 29 else 28)
  else if m = 4 ∨ m = 6 ∨ m = 9 ∨ m = 11 then 30
  else 31

/-- Shift a date by `k` calendar months, clamping the day to the target
month's length (the `relativedelta` month-arithmetic convention). -/
def addMonths (d : Date) (k : Int) : Date :=
  let t : Int := d.year * 12 + ((d.month : Int) - 1) + k
  let y := t.fdiv 12
  let m := (t.emod 12).toNat + 1
  ⟨y, m, Nat.min d.day (daysInMonth y m)⟩

def dateLe (a b : Date) : Bool :=
  if a.year < b.year then true
  else if b.year < a.year then false
  else if a.month < b.month then true
  else if b.month < a.month then false
  else decide (a.day ≤ b.day)

/-- Day number of a proleptic-Gregorian date (civil-from-days inverse);
only differences of two `dayNumber`s are used. -/
def dayNumber (d : Date) : Int :=
  let y := if d.month ≤ 2 then d.year - 1 else d.year
  let era := y.fdiv 400
  let yoe := (y - era * 400).toNat
  let mp := (d.month + 9) % 12
  let doy := (153 * mp + 2) / 5 + d.day - 1
  let doe := yoe * 365 + yoe / 4 - yoe / 100 + doy
  era * 146097 + (doe : Int)

/-- Total month component of `relativedelta(dt1, dt2)`: the raw
year/month difference corrected by one step when the day-clamped shifted
date overshoots `dt1` (the `while compare(dt1, dtm)` loop runs at most once
because the raw shift lands in `dt1`'s own month). -/
def relmonths (dt2 dt1 : Date) : Int :=
  let init : Int := (dt1.year - dt2.year) * 12 + ((dt1.month : Int) - (dt2.month : Int))
  if dateLe dt2 dt1 then
    if dateLe (addMonths dt2 init) dt1 then init else init - 1
  else
    if dateLe dt1 (addMonths dt2 init) then init else init + 1

/-- Embeds `relativedelta._set_months`: normalise a month count into (years, months). -/
def setMonths (k : Int) : Int × Int :=
  if 11 < k.natAbs then
    let s : Int := if k < 0 then -1 else 1
    (((k.natAbs / 12 : Nat) : Int) * s, ((k.natAbs % 12 : Nat) : Int) * s)
  else (0, k)

/-- Computes (years, months, days) of `relativedelta(dt1, dt2)` for pure dates. -/
def relativedeltaYMD (dt2 dt1 : Date) : Int × Int × Int :=
  let k := relmonths dt2 dt1
  let ym := setMonths k
  (ym.1, ym.2, dayNumber dt1 - dayNumber (addMonths dt2 k))

/-- Python `str.split` with a single-character separator (structurally
recursive so that proofs can evaluate it; `String.splitOn` is
well-founded-recursive and does not reduce). -/
def splitOnChar (c : Char) : List Char → List (List Char)
  | [] => [[]]
  | x :: xs =>
    match splitOnChar c xs with
    | [] => [[]]
    | h :: t => if x = c then [] :: h :: t else (x :: h) :: t

def strSplitOn (s : String) (c : Char) : List String :=
  (splitOnChar c s.data).map List.asString

def charDigit? (c : Char) : Option Nat :=
  if '0' ≤ c ∧ c ≤ '9' then some (c.toNat - '0'.toNat) else none

/-- Decimal-digit string to `Nat` (the digit parsing inside `strptime`). -/
def strToNat? (s : String) : Option Nat :=
  match s.data.mapM charDigit? with
  | some (d :: rest) => some ((d :: rest).foldl (fun a x => a * 10 + x) 0)
  | _ => none

/-- Embeds `datetime.strptime(s, "%Y-%m-%d")`, as far as the digits are concerned. -/
def parseDate (s : String) : Option Date :=
  match strSplitOn s '-' with
  | [ys, ms, ds] =>
    match strToNat? ys, strToNat? ms, strToNat? ds with
    | some y, some m, some d => some ⟨(y : Int), m, d⟩
    | _, _, _ => none
  | _ => none

/-- Embeds `calculate_uptime(birthday_str)` with `datetime.today()` made explicit.
A malformed birthday raises `ValueError` in Python (unhandled abort); it is
totalised here with a fixed default date, which no claim exercises. -/
def calculate_uptime (birthday_str : String) (today : Date) : String :=
  let birthday := (parseDate birthday_str).getD ⟨1900, 1, 1⟩
  let d := relativedeltaYMD birthday today
  let parts : List String :=
    (if 0 < d.1 then [toString d.1 ++ " year" ++ (if d.1 ≠ 1 then "s" else "")] else [])
    ++ (if 0 < d.2.1 then [toString d.2.1 ++ " month" ++ (if d.2.1 ≠ 1 then "s" else "")] else [])
    ++ (if 0 < d.2.2 then [toString d.2.2 ++ " day" ++ (if d.2.2 ≠ 1 then "s" else "")] else [])
  if parts.isEmpty then "0 days" else String.intercalate ", " parts

/-! ### `format_number`

CPython's `f"{n / d:.1f}"` formats the binary64 double nearest to `n / d`,
rounding to one decimal with round-half-to-even on that double.  It is
embedded as exact rational round-half-to-even of `n / d` to tenths, which
agrees with CPython except when `n / d` is a decimal tie that is not exactly
representable in binary64; every input appearing in this development is
exact. -/

def roundHalfEvenTenths (n den : Nat) : Nat :=
  let q := n * 10 / den
  let r := n * 10 % den
  if den < 2 * r then q + 1
  else if 2 * r < den then q
  else if q % 2 = 0 then q else q + 1

/-- Embeds `f"{n / den:.1f}"` on natural `n` and positive `den`. -/
def fmt1dec (n den : Nat) : String :=
  let t := roundHalfEvenTenths n den
  toString (t / 10) ++ "." ++ toString (t % 10)

/-- Embeds `format_number`: K/M abbreviation of large numbers. -/
def format_number (n : Nat) : String :=
  if 1000000 ≤ n then fmt1dec n 1000000 ++ "M"
  else if 1000 ≤ n then fmt1dec n 1000 ++ "K"
  else toString n

/-! ### Configuration and statistics records -/

structure Languages where
  code : Option String
  markup : Option String
  human : Option String
deriving DecidableEq, Repr

structure StackCfg where
  backend : Option String
  frontend : Option String
  database : Option String
  infra : Option String
deriving DecidableEq, Repr

structure ContactEntry where
  url : Option String
  label : Option String
deriving DecidableEq, Repr

structure ContactCfg where
  website : ContactEntry
  email : ContactEntry
  linkedin : ContactEntry
deriving DecidableEq, Repr

structure Config where
  header : String
  host : Option String
  kernel : Option String
  birthday : Option String
  location : Option String
  languages : Languages
  stack : StackCfg
  contact : ContactCfg
deriving DecidableEq, Repr

structure Stats where
  repos : Nat
  stars : Nat
  followers : Nat
  commits : Nat
  prs : Nat
  additions : Nat
  deletions : Nat
deriving DecidableEq, Repr

/-- Python truthiness of an optional string configuration value:
present and non-empty. -/
def pyTruthy (o : Option String) : Bool := !(o.getD "").data.isEmpty

def repChar (n : Nat) (c : Char) : String := (List.replicate n c).asString

/-! ### `build_info_lines` -/

/-- Visible text of a value for dot-padding: for links, the text between the
first `>` and the following `<` (`value.split(">")[1].split("<")[0]`). -/
def visible_value (value : String) : String :=
  if value.data.contains '>' then
    (strSplitOn ((strSplitOn value '>').getD 1 "") '<').getD 0 ""
  else value

/-- Embeds `make_line`: `"  {label}: {dots} {value}  "` with at least 3 dots,
aligned to content width 50 (links measured by their visible text). -/
def make_line (label value : String) (is_link : Bool) : String :=
  let visible_len :=
    if is_link then label.length + 3 + (visible_value value).length
    else label.length + 3 + value.length
  let dots := repChar (Nat.max (50 - visible_len) 3) '.'
  "  " ++ label ++ ": " ++ dots ++ " " ++ value ++ "  "

/-- Embeds `make_section`: `"  ── {title} ───…───  "` spanning content width 50. -/
def make_section (title : String) : String :=
  let pfx := "── " ++ title ++ " "
  "  " ++ pfx ++ repChar (50 - pfx.length) '─' ++ "  "

def make_empty : String := "  " ++ repChar 50 ' ' ++ "  "

def topBorder : String := "┏" ++ repChar 52 '━' ++ "┓"

def bottomBorder : String := "┗" ++ repChar 52 '━' ++ "┛"

/-- Basic-info lines: one `make_line` per truthy value among
host / kernel / birthday (rendered through `calculate_uptime`) / location. -/
def basicLines (cfg : Config) (today : Date) : List String :=
  (if pyTruthy cfg.host then [make_line "Host" (cfg.host.getD "") false] else [])
  ++ (if pyTruthy cfg.kernel then [make_line "Kernel" (cfg.kernel.getD "") false] else [])
  ++ (if pyTruthy cfg.birthday then
        [make_line "Uptime" (calculate_uptime (cfg.birthday.getD "") today) false] else [])
  ++ (if pyTruthy cfg.location then [make_line "Location" (cfg.location.getD "") false] else [])

def langLines (cfg : Config) : List String :=
  (if pyTruthy cfg.languages.code then
      [make_line "Languages.Code" (cfg.languages.code.getD "") false] else [])
  ++ (if pyTruthy cfg.languages.markup then
      [make_line "Languages.Markup" (cfg.languages.markup.getD "") false] else [])
  ++ (if pyTruthy cfg.languages.human then
      [make_line "Languages.Human" (cfg.languages.human.getD "") false] else [])

/-- The Languages section: header, body and trailing blank, emitted only when
`lang_lines` is non-empty (`if lang_lines:` in the source). -/
def langBlock (cfg : Config) : List String :=
  if langLines cfg = [] then [] else make_section "Languages" :: (langLines cfg ++ [make_empty])

def stackLines (cfg : Config) : List String :=
  (if pyTruthy cfg.stack.backend then
      [make_line "Backend" (cfg.stack.backend.getD "") false] else [])
  ++ (if pyTruthy cfg.stack.frontend then
      [make_line "Frontend" (cfg.stack.frontend.getD "") false] else [])
  ++ (if pyTruthy cfg.stack.database then
      [make_line "Database" (cfg.stack.database.getD "") false] else [])
  ++ (if pyTruthy cfg.stack.infra then
      [make_line "Infra" (cfg.stack.infra.getD "") false] else [])

def stackBlock (cfg : Config) : List String :=
  if stackLines cfg = [] then [] else make_section "Stack" :: (stackLines cfg ++ [make_empty])

/-- Embeds `f'<a href="{url}">{label}</a>'`. -/
def linkHtml (url lab : String) : String :=
  "<a href=\"" ++ url ++ "\">" ++ lab ++ "</a>"

def contactLines (cfg : Config) : List String :=
  (if pyTruthy cfg.contact.website.url && pyTruthy cfg.contact.website.label then
      [make_line "Website"
        (linkHtml (cfg.contact.website.url.getD "") (cfg.contact.website.label.getD "")) true]
    else [])
  ++ (if pyTruthy cfg.contact.email.url && pyTruthy cfg.contact.email.label then
      [make_line "Email"
        (linkHtml (cfg.contact.email.url.getD "") (cfg.contact.email.label.getD "")) true]
    else [])
  ++ (if pyTruthy cfg.contact.linkedin.url && pyTruthy cfg.contact.linkedin.label then
      [make_line "LinkedIn"
        (linkHtml (cfg.contact.linkedin.url.getD "") (cfg.contact.linkedin.label.getD "")) true]
    else [])

def contactBlock (cfg : Config) : List String :=
  if contactLines cfg = [] then [] else make_section "Contact" :: (contactLines cfg ++ [make_empty])

/-- The unconditional GitHub Stats section. -/
def statsBlock (stats : Stats) : List String :=
  [make_section "GitHub Stats",
   make_line "Repos" (toString stats.repos) false,
   make_line "Commits" (format_number stats.commits) false,
   make_line "PRs" (format_number stats.prs) false,
   make_line "Stars" (format_number stats.stars) false,
   make_line "Followers" (toString stats.followers) false,
   make_line "Lines of Code"
     (format_number (stats.additions + stats.deletions) ++ " \x7b " ++
      format_number stats.additions ++ "++, " ++
      format_number stats.deletions ++ "-- \x7d") false]

/-- Embeds `build_info_lines` with `datetime.today()` (reached through
`calculate_uptime`) made an explicit argument. -/
def build_info_lines (cfg : Config) (stats : Stats) (today : Date) : List String :=
  ["$ " ++ cfg.header, topBorder, make_empty]
  ++ basicLines cfg today
  ++ [make_empty]
  ++ langBlock cfg
  ++ stackBlock cfg
  ++ contactBlock cfg
  ++ statsBlock stats
  ++ [make_empty, bottomBorder]

/-! ### `merge_ascii_and_info` -/

/-- Embeds `max(len(line) for line in ascii_lines) if ascii_lines else 0`. -/
def asciiWidth (l : List String) : Nat :=
  if l.isEmpty then 0 else (l.map String.length).foldl Nat.max 0

/-- Python `str.ljust` / `f"{s:<{w}}"`. -/
def ljust (s : String) (w : Nat) : String := s ++ repChar (w - s.length) ' '

def merge_ascii_and_info (ascii_lines info_lines : List String) : List String :=
  let width := asciiWidth ascii_lines
  let fill_line := repChar width '@'
  let border_line := repChar width '='
  let p : List String × List String :=
    if ascii_lines.length < info_lines.length then
      let available := info_lines.length - 2
      let tb :=
        if ascii_lines.length < available then
          let t := (available - ascii_lines.length) / 2
          (t, available - ascii_lines.length - t)
        else (0, 0)
      ([border_line] ++ List.replicate tb.1 fill_line ++ ascii_lines
         ++ List.replicate tb.2 fill_line ++ [border_line], info_lines)
    else
      let a2 := [border_line] ++ ascii_lines ++ [border_line]
      (a2, info_lines ++ List.replicate (a2.length - info_lines.length) "")
  (List.range (Nat.max p.1.length p.2.length)).map fun i =>
    ljust (p.1.getD i "") width ++ repChar 6 ' ' ++ p.2.getD i ""

/-! ### GraphQL pagination (`fetch_repos_with_commits`, `fetch_loc_for_repo`)

A page response carries its edges and `pageInfo`; the provider's successive
pages are a list, consumed in order.  A further page is requested exactly
when `pageInfo.hasNextPage` holds; `endCursor` is carried but never decides
termination.  A failed (non-200 / absent) response simply ends the supplied
page list, matching the source's early `return`. -/

structure PageInfo where
  endCursor : Option String
  hasNextPage : Bool
deriving DecidableEq, Repr

structure CommitNode where
  additions : Nat
  deletions : Nat
  /-- Holds `node.author.user.id` when author and user are present. -/
  authorUserId : Option String
deriving DecidableEq, Repr

structure HistoryPage where
  edges : List CommitNode
  pageInfo : PageInfo
deriving DecidableEq, Repr

/-- Body of the commit loop: count a commit and its line counts only when the
author matches the resolved user id.  Accumulator is
(additions, deletions, my_commits). -/
def locStep (user_id : String) (acc : Nat × Nat × Nat) (node : CommitNode) : Nat × Nat × Nat :=
  match node.authorUserId with
  | some uid =>
    if uid = user_id then (acc.1 + node.additions, acc.2.1 + node.deletions, acc.2.2 + 1)
    else acc
  | none => acc

/-- Embeds `fetch_loc_for_repo`: fold each page's edges into the accumulators and
recurse on the remaining pages exactly when `hasNextPage` is true. -/
def fetch_loc_for_repo (user_id : String) : List HistoryPage → Nat × Nat × Nat → Nat × Nat × Nat
  | [], acc => acc
  | p :: rest, acc =>
    let acc2 := p.edges.foldl (locStep user_id) acc
    if p.pageInfo.hasNextPage then fetch_loc_for_repo user_id rest acc2 else acc2

structure RepoEdge where
  nameWithOwner : String
  isFork : Bool
  /-- Holds `defaultBranchRef.target.history.totalCount` when branch and target
  exist, `none` otherwise. -/
  defaultBranchRef : Option Nat
deriving DecidableEq, Repr

structure RepoPage where
  edges : List RepoEdge
  pageInfo : PageInfo
deriving DecidableEq, Repr

structure RepoInfo where
  nameWithOwner : String
  isFork : Bool
  commitCount : Nat
deriving DecidableEq, Repr

/-- A repo with no default branch or commit target gets commit count 0. -/
def repoOfEdge (e : RepoEdge) : RepoInfo :=
  ⟨e.nameWithOwner, e.isFork, e.defaultBranchRef.getD 0⟩

/-- Embeds `fetch_repos_with_commits`: collect every page's repos, requesting the
next page exactly when `hasNextPage` is true. -/
def fetch_repos_with_commits : List RepoPage → List RepoInfo
  | [] => []
  | p :: rest =>
    p.edges.map repoOfEdge ++ (if p.pageInfo.hasNextPage then fetch_repos_with_commits rest else [])

/-! ### LOC cache (`fetch_loc_with_cache`)

The JSON cache file is a key → record mapping; it is embedded as an
association list with Python-dict semantics (update in place, insert at the
end).  The owner/name split and the network layer are abstracted: a
repository's commit-history pages are looked up by its full name. -/

structure CacheEntry where
  commitCount : Nat
  additions : Nat
  deletions : Nat
  myCommits : Nat
deriving DecidableEq, Repr

abbrev Cache := List (String × CacheEntry)

def cacheLookup : Cache → String → Option CacheEntry
  | [], _ => none
  | (k, v) :: rest, key => if k = key then some v else cacheLookup rest key

def cacheInsert : Cache → String → CacheEntry → Cache
  | [], key, v => [(key, v)]
  | (k, w) :: rest, key, v =>
    if k = key then (k, v) :: rest else (k, w) :: cacheInsert rest key v

/-- The remote data visible to `fetch_loc_with_cache`: the resolved user id
(`fetch_user_id`), the paginated repository listing, and each repository's
paginated commit history keyed by full name. -/
structure LocEnv where
  userId : Option String
  repoPages : List RepoPage
  history : String → List HistoryPage

structure LocState where
  cacheHits : Nat
  cacheMisses : Nat
  totalAdditions : Nat
  totalDeletions : Nat
  cache : Cache
deriving DecidableEq, Repr

/-- Cache-miss branch: refetch the repository's history and overwrite its
cache entry with the fresh commit count, additions, deletions, my_commits. -/
def missUpdate (user_id : String) (history : String → List HistoryPage)
    (st : LocState) (repo : RepoInfo) : LocState :=
  let res := fetch_loc_for_repo user_id (history repo.nameWithOwner) (0, 0, 0)
  { st with
    cache := cacheInsert st.cache repo.nameWithOwner
      ⟨repo.commitCount, res.1, res.2.1, res.2.2⟩,
    totalAdditions := st.totalAdditions + res.1,
    totalDeletions := st.totalDeletions + res.2.1,
    cacheMisses := st.cacheMisses + 1 }

/-- One iteration of the repository loop: skip forks; reuse a cache entry
whose stored commit count equals the current one; otherwise refetch. -/
def processRepo (user_id : String) (history : String → List HistoryPage)
    (st : LocState) (repo : RepoInfo) : LocState :=
  if repo.isFork then st
  else
    match cacheLookup st.cache repo.nameWithOwner with
    | some entry =>
      if entry.commitCount = repo.commitCount then
        { st with
          cacheHits := st.cacheHits + 1,
          totalAdditions := st.totalAdditions + entry.additions,
          totalDeletions := st.totalDeletions + entry.deletions }
      else missUpdate user_id history st repo
    | none => missUpdate user_id history st repo

/-- The repository loop of `fetch_loc_with_cache`, started from zero totals
and the cache loaded from disk. -/
def runLoc (user_id : String) (env : LocEnv) (cache0 : Cache) : LocState :=
  (fetch_repos_with_commits env.repoPages).foldl (processRepo user_id env.history)
    ⟨0, 0, 0, 0, cache0⟩

/-- Embeds `fetch_loc_with_cache`, returning the totals together with the cache as
written back to disk (unchanged on the early no-token / no-user-id returns,
which happen before the cache file is touched). -/
def fetch_loc_with_cache (hasToken : Bool) (env : LocEnv) (cache0 : Cache) :
    (Nat × Nat) × Cache :=
  if hasToken then
    match env.userId with
    | some uid =>
      let st := runLoc uid env cache0
      ((st.totalAdditions, st.totalDeletions), st.cache)
    | none => ((0, 0), cache0)
  else ((0, 0), cache0)

/-- The additions a repository contributes when read back from a cache `c`
(0 for forks and for absent entries); used to state run-to-run totals. -/
def cachedAdd (c : Cache) (r : RepoInfo) : Nat :=
  if r.isFork then 0
  else
    match cacheLookup c r.nameWithOwner with
    | some e => e.additions
    | none => 0

/-- Deletions counterpart of `cachedAdd`. -/
def cachedDel (c : Cache) (r : RepoInfo) : Nat :=
  if r.isFork then 0
  else
    match cacheLookup c r.nameWithOwner with
    | some e => e.deletions
    | none => 0

def sumCachedAdd (c : Cache) (l : List RepoInfo) : Nat := (l.map (cachedAdd c)).sum

def sumCachedDel (c : Cache) (l : List RepoInfo) : Nat := (l.map (cachedDel c)).sum

/-! ### `fetch_github_stats` -/

structure UserInfoPayload where
  publicRepos : Option Nat
  followers : Option Nat
deriving DecidableEq, Repr

structure RepoListItem where
  stargazersCount : Option Nat
deriving DecidableEq, Repr

structure SearchPayload where
  totalCount : Option Nat
deriving DecidableEq, Repr

/-- The four REST responses; `none` models a non-200 status. -/
structure RestEnv where
  userResp : Option UserInfoPayload
  reposResp : Option (List RepoListItem)
  commitsResp : Option SearchPayload
  prsResp : Option SearchPayload

/-- Embeds `fetch_github_stats`: each call fills only its own fields of the
zero-initialised stats record; with a token, line counts come from
`fetch_loc_with_cache`. -/
def fetch_github_stats (env : RestEnv) (hasToken : Bool) (lenv : LocEnv) (cache0 : Cache) :
    Stats :=
  let s0 : Stats := ⟨0, 0, 0, 0, 0, 0, 0⟩
  let s1 := match env.userResp with
    | some u => { s0 with repos := u.publicRepos.getD 0, followers := u.followers.getD 0 }
    | none => s0
  let s2 := match env.reposResp with
    | some rs => { s1 with stars := (rs.map (fun r => r.stargazersCount.getD 0)).sum }
    | none => s1
  let s3 := match env.commitsResp with
    | some p => { s2 with commits := p.totalCount.getD 0 }
    | none => s2
  let s4 := match env.prsResp with
    | some p => { s3 with prs := p.totalCount.getD 0 }
    | none => s3
  if hasToken then
    let r := fetch_loc_with_cache hasToken lenv cache0
    { s4 with additions := r.1.1, deletions := r.1.2 }
  else s4

/-! ## Theorems -/

theorem length_repChar (n : Nat) (c : Char) : (repChar n c).length = n := by
  simp [repChar, List.asString, String.length]

theorem length_ljust (s : String) (w : Nat) : (ljust s w).length = s.length + (w - s.length) := by
  simp [ljust, String.length_append, length_repChar]

/-- C3: `format_number` follows the piecewise definition: below 1000 the
literal decimal string, from 1000 to 999999 the one-decimal K form, from
1000000 up the one-decimal M form; 1500 ↦ "1.5K", 2500000 ↦ "2.5M",
42 ↦ "42". -/
theorem format_number_piecewise (n : Nat) :
    (n < 1000 → format_number n = toString n)
    ∧ (1000 ≤ n → n < 1000000 → format_number n = fmt1dec n 1000 ++ "K")
    ∧ (1000000 ≤ n → format_number n = fmt1dec n 1000000 ++ "M")
    ∧ format_number 1500 = "1.5K"
    ∧ format_number 2500000 = "2.5M"
    ∧ format_number 42 = "42" := by
  refine ⟨?_, ?_, ?_, by decide, by decide, by decide⟩
  · intro h
    unfold format_number
    rw [if_neg (by omega), if_neg (by omega)]
  · intro h1 h2
    unfold format_number
    rw [if_neg (by omega), if_pos h1]
  · intro h
    unfold format_number
    rw [if_pos h]

theorem format_number_piecewise_witness :
    1000 ≤ 1500 ∧ 1500 < 1000000 ∧ format_number 1500 = fmt1dec 1500 1000 ++ "K" :=
  ⟨by decide, by decide, (format_number_piecewise 1500).2.1 (by decide) (by decide)⟩

/-- C8 counterexample: at exactly 1000 the code abbreviates ("1.0K"), so the
claim that every n ≤ 1000 prints as the literal decimal string fails. -/
theorem format_number_at_1000_not_verbatim :
    format_number 1000 = "1.0K" ∧ format_number 1000 ≠ toString 1000 := by
  constructor
  · decide
  · decide

/-- C8 amended: `format_number` abbreviates values ≥ 1000 with a K suffix and
values ≥ 1000000 with an M suffix; every n < 1000 prints verbatim. -/
theorem format_number_thresholds (n : Nat) :
    (n < 1000 → format_number n = toString n)
    ∧ (1000 ≤ n ∧ n < 1000000 → format_number n = fmt1dec n 1000 ++ "K")
    ∧ (1000000 ≤ n → format_number n = fmt1dec n 1000000 ++ "M") := by
  refine ⟨?_, ?_, ?_⟩
  · intro h
    unfold format_number
    rw [if_neg (by omega), if_neg (by omega)]
  · intro h
    unfold format_number
    rw [if_neg (by omega), if_pos h.1]
  · intro h
    unfold format_number
    rw [if_pos h]

theorem format_number_thresholds_witness :
    999 < 1000 ∧ format_number 999 = toString 999 :=
  ⟨by decide, (format_number_thresholds 999).1 (by decide)⟩

/-- C7: both paginated traversals request a further page exactly when the
response's `hasNextPage` is true — with `hasNextPage` false the remaining
pages are never consumed, whatever the (arbitrary, possibly present)
`endCursor` is. -/
theorem pagination_stops_iff_hasNextPage (user_id : String) (edges : List CommitNode)
    (cur : Option String) (rest : List HistoryPage) (acc : Nat × Nat × Nat)
    (redges : List RepoEdge) (rrest : List RepoPage) :
    fetch_loc_for_repo user_id (⟨edges, ⟨cur, false⟩⟩ :: rest) acc
      = edges.foldl (locStep user_id) acc
    ∧ fetch_loc_for_repo user_id (⟨edges, ⟨cur, true⟩⟩ :: rest) acc
      = fetch_loc_for_repo user_id rest (edges.foldl (locStep user_id) acc)
    ∧ fetch_repos_with_commits (⟨redges, ⟨cur, false⟩⟩ :: rrest) = redges.map repoOfEdge
    ∧ fetch_repos_with_commits (⟨redges, ⟨cur, true⟩⟩ :: rrest)
      = redges.map repoOfEdge ++ fetch_repos_with_commits rrest := by
  refine ⟨?_, ?_, ?_, ?_⟩ <;> simp [fetch_loc_for_repo, fetch_repos_with_commits]

/-- C4: the four REST calls are independent: turning any one response into a
non-200 (`none`) zeroes exactly that call's fields of the result and leaves
every field populated by the other calls unchanged. -/
theorem fetch_github_stats_independent (env : RestEnv) (hasToken : Bool)
    (lenv : LocEnv) (cache0 : Cache) :
    fetch_github_stats { env with userResp := none } hasToken lenv cache0
      = { fetch_github_stats env hasToken lenv cache0 with repos := 0, followers := 0 }
    ∧ fetch_github_stats { env with reposResp := none } hasToken lenv cache0
      = { fetch_github_stats env hasToken lenv cache0 with stars := 0 }
    ∧ fetch_github_stats { env with commitsResp := none } hasToken lenv cache0
      = { fetch_github_stats env hasToken lenv cache0 with commits := 0 }
    ∧ fetch_github_stats { env with prsResp := none } hasToken lenv cache0
      = { fetch_github_stats env hasToken lenv cache0 with prs := 0 } := by
  obtain ⟨u, r, c, p⟩ := env
  refine ⟨?_, ?_, ?_, ?_⟩ <;>
    cases u <;> cases r <;> cases c <;> cases p <;> cases hasToken <;>
      simp [fetch_github_stats]

/-- C6: merging non-empty art (height H1) and info (height H2) yields height
max(H1,H2) adjusted for the two synthesized border lines — exactly
max(H1+2, H2), which lies between max(H1,H2) and max(H1,H2)+2 — and every
output line is at least art width + 6 (the fixed padding) long. -/
theorem merge_ascii_and_info_height_width (ascii_lines info_lines : List String)
    (ha : ascii_lines ≠ []) (hi : info_lines ≠ []) :
    (merge_ascii_and_info ascii_lines info_lines).length
      = Nat.max (ascii_lines.length + 2) info_lines.length
    ∧ Nat.max ascii_lines.length info_lines.length
        ≤ (merge_ascii_and_info ascii_lines info_lines).length
    ∧ (merge_ascii_and_info ascii_lines info_lines).length
        ≤ Nat.max ascii_lines.length info_lines.length + 2
    ∧ ∀ s ∈ merge_ascii_and_info ascii_lines info_lines,
        asciiWidth ascii_lines + 6 ≤ s.length := by
  have hlen : (merge_ascii_and_info ascii_lines info_lines).length
      = Nat.max (ascii_lines.length + 2) info_lines.length := by
    simp only [merge_ascii_and_info, List.length_map, List.length_range]
    split
    next h =>
      split
      next h2 =>
        simp only [List.length_append, List.length_replicate, List.length_cons,
          List.length_singleton, List.length_nil, Nat.max_def]
        split_ifs <;> omega
      next h2 =>
        simp only [List.length_append, List.length_replicate, List.length_cons,
          List.length_singleton, List.length_nil, Nat.max_def]
        split_ifs <;> omega
    next h =>
      simp only [List.length_append, List.length_replicate, List.length_cons,
        List.length_singleton, List.length_nil, Nat.max_def]
      split_ifs <;> omega
  refine ⟨hlen, ?_, ?_, ?_⟩
  · rw [hlen]
    simp only [Nat.max_def]
    split_ifs <;> omega
  · rw [hlen]
    simp only [Nat.max_def]
    split_ifs <;> omega
  · intro s hs
    simp only [merge_ascii_and_info, List.mem_map] at hs
    obtain ⟨i, _, rfl⟩ := hs
    simp only [String.length_append, length_ljust, length_repChar]
    omega

theorem merge_ascii_and_info_height_width_witness :
    (["ab"] : List String) ≠ [] ∧ (["1", "2", "3", "4", "5"] : List String) ≠ []
    ∧ (merge_ascii_and_info ["ab"] ["1", "2", "3", "4", "5"]).length = 5 :=
  ⟨by simp, by simp,
    (merge_ascii_and_info_height_width ["ab"] ["1", "2", "3", "4", "5"]
      (by simp) (by simp)).1⟩

/-- C5 counterexample: with a birthday configured, `build_info_lines` on the
same configuration and statistics differs between two evaluation dates (the
Uptime line moves with `datetime.today()`), so it is not deterministic across
time as claimed. -/
theorem build_info_lines_date_dependent :
    build_info_lines
        ⟨"h", none, none, some "2000-01-01", none, ⟨none, none, none⟩,
          ⟨none, none, none, none⟩, ⟨⟨none, none⟩, ⟨none, none⟩, ⟨none, none⟩⟩⟩
        ⟨0, 0, 0, 0, 0, 0, 0⟩ ⟨2026, 10, 12⟩
      ≠ build_info_lines
        ⟨"h", none, none, some "2000-01-01", none, ⟨none, none, none⟩,
          ⟨none, none, none, none⟩, ⟨⟨none, none⟩, ⟨none, none⟩, ⟨none, none⟩⟩⟩
        ⟨0, 0, 0, 0, 0, 0, 0⟩ ⟨2026, 10, 13⟩ := by
  decide

/-- C5 amended: `build_info_lines` is a pure function of configuration,
statistics and the current date; for a configuration without a (truthy)
birthday the output is independent of the date, but with a birthday the
Uptime line varies with the evaluation date. -/
theorem build_info_lines_deterministic_without_birthday (cfg : Config) (stats : Stats)
    (d1 d2 : Date) (h : pyTruthy cfg.birthday = false) :
    build_info_lines cfg stats d1 = build_info_lines cfg stats d2 := by
  simp [build_info_lines, basicLines, h]

theorem build_info_lines_deterministic_without_birthday_witness :
    pyTruthy (Config.birthday ⟨"h", some "x", none, none, none, ⟨none, none, none⟩,
        ⟨none, none, none, none⟩, ⟨⟨none, none⟩, ⟨none, none⟩, ⟨none, none⟩⟩⟩) = false
    ∧ build_info_lines
        ⟨"h", some "x", none, none, none, ⟨none, none, none⟩,
          ⟨none, none, none, none⟩, ⟨⟨none, none⟩, ⟨none, none⟩, ⟨none, none⟩⟩⟩
        ⟨1, 2, 3, 4, 5, 6, 7⟩ ⟨2020, 1, 1⟩
      = build_info_lines
        ⟨"h", some "x", none, none, none, ⟨none, none, none⟩,
          ⟨none, none, none, none⟩, ⟨⟨none, none⟩, ⟨none, none⟩, ⟨none, none⟩⟩⟩
        ⟨1, 2, 3, 4, 5, 6, 7⟩ ⟨2021, 5, 5⟩ :=
  ⟨rfl, build_info_lines_deterministic_without_birthday _ _ _ _ rfl⟩

/-! ### Cache lemmas -/

theorem cacheLookup_cacheInsert_self (c : Cache) (k : String) (v : CacheEntry) :
    cacheLookup (cacheInsert c k v) k = some v := by
  induction c with
  | nil => simp [cacheInsert, cacheLookup]
  | cons hd t ih =>
    obtain ⟨k', v'⟩ := hd
    by_cases hk : k' = k
    · simp [cacheInsert, hk, cacheLookup]
    · simp [cacheInsert, hk, cacheLookup, ih]

theorem cacheLookup_cacheInsert_other (c : Cache) (k k' : String) (v : CacheEntry)
    (h : k' ≠ k) : cacheLookup (cacheInsert c k' v) k = cacheLookup c k := by
  induction c with
  | nil => simp [cacheInsert, cacheLookup, h]
  | cons hd t ih =>
    obtain ⟨k2, v2⟩ := hd
    by_cases hk : k2 = k'
    · subst hk
      simp [cacheInsert, cacheLookup, h]
    · simp [cacheInsert, hk, cacheLookup, ih]

theorem processRepo_lookup_other (user_id : String) (history : String → List HistoryPage)
    (st : LocState) (repo : RepoInfo) (k : String) (h : repo.nameWithOwner ≠ k) :
    cacheLookup (processRepo user_id history st repo).cache k = cacheLookup st.cache k := by
  by_cases hf : repo.isFork
  · simp [processRepo, hf]
  · rcases hl : cacheLookup st.cache repo.nameWithOwner with _ | e
    · simp [processRepo, hf, hl, missUpdate, cacheLookup_cacheInsert_other _ _ _ _ h]
    · by_cases hcc : e.commitCount = repo.commitCount
      · simp [processRepo, hf, hl, hcc]
      · simp [processRepo, hf, hl, hcc, missUpdate, cacheLookup_cacheInsert_other _ _ _ _ h]

theorem foldl_lookup_frame (user_id : String) (history : String → List HistoryPage)
    (l : List RepoInfo) (st : LocState) (k : String)
    (h : ∀ r ∈ l, r.nameWithOwner ≠ k) :
    cacheLookup (l.foldl (processRepo user_id history) st).cache k = cacheLookup st.cache k := by
  induction l generalizing st with
  | nil => rfl
  | cons r t ih =>
    rw [List.foldl_cons]
    exact (ih _ (fun x hx => h x (List.mem_cons_of_mem _ hx))).trans
      (processRepo_lookup_other _ _ _ _ _ (h r (List.mem_cons_self _ _)))

/-- C10: `fetch_loc_with_cache` rewrites no cache entry it did not recompute:
any key all of whose occurrences in the fetched repository list are forks or
have a cache entry with a matching commit count — in particular any key of a
fork, and any key absent from the list — maps to the same entry after the
run as before it. -/
theorem fetch_loc_with_cache_frame (env : LocEnv) (uid : String) (cache0 : Cache)
    (hu : env.userId = some uid) (k : String)
    (h : ∀ r ∈ fetch_repos_with_commits env.repoPages, r.nameWithOwner = k →
      r.isFork = true ∨ ∃ e, cacheLookup cache0 k = some e ∧ e.commitCount = r.commitCount) :
    cacheLookup (fetch_loc_with_cache true env cache0).2 k = cacheLookup cache0 k := by
  have main : ∀ (l : List RepoInfo) (st : LocState),
      (∀ r ∈ l, r.nameWithOwner = k →
        r.isFork = true ∨ ∃ e, cacheLookup st.cache k = some e ∧ e.commitCount = r.commitCount) →
      cacheLookup (l.foldl (processRepo uid env.history) st).cache k = cacheLookup st.cache k := by
    intro l
    induction l with
    | nil => intro st _; rfl
    | cons r t ih =>
      intro st hst
      rw [List.foldl_cons]
      have hstep : cacheLookup (processRepo uid env.history st r).cache k
          = cacheLookup st.cache k := by
        by_cases hk : r.nameWithOwner = k
        · rcases hst r (List.mem_cons_self _ _) hk with hf | ⟨e, he, hcc⟩
          · simp [processRepo, hf]
          · rw [← hk] at he
            by_cases hf : r.isFork
            · simp [processRepo, hf]
            · simp [processRepo, hf, he, hcc]
        · exact processRepo_lookup_other _ _ _ _ _ hk
      refine (ih _ ?_).trans hstep
      intro x hx hxk
      rcases hst x (List.mem_cons_of_mem _ hx) hxk with hf | ⟨e, he, hcc⟩
      · exact Or.inl hf
      · exact Or.inr ⟨e, by rw [hstep]; exact he, hcc⟩
  simp only [fetch_loc_with_cache, hu, if_pos]
  exact main _ _ h

theorem fetch_loc_with_cache_frame_witness :
    (⟨some "u", [], fun _ => []⟩ : LocEnv).userId = some "u"
    ∧ cacheLookup
        (fetch_loc_with_cache true ⟨some "u", [], fun _ => []⟩ [("x", ⟨1, 2, 3, 4⟩)]).2 "x"
      = cacheLookup [("x", ⟨1, 2, 3, 4⟩)] "x" :=
  ⟨rfl, fetch_loc_with_cache_frame ⟨some "u", [], fun _ => []⟩ "u" _ rfl "x"
    (by intro r hr; simp [fetch_repos_with_commits] at hr)⟩

/-- C1: one iteration of the repository loop, for a non-fork repository:
with a cache entry whose stored commit count equals the current one, the
stored additions/deletions are reused and the cache is untouched (hit);
otherwise the history is re-summed — `locStep` counting only commits whose
author is the resolved user id — and the entry is overwritten with the new
commitCount, additions, deletions and myCommits, the totals growing by the
fresh values (miss). -/
theorem processRepo_hit_miss (user_id : String) (history : String → List HistoryPage)
    (st : LocState) (repo : RepoInfo) (hfork : repo.isFork = false) :
    (∀ e, cacheLookup st.cache repo.nameWithOwner = some e →
      e.commitCount = repo.commitCount →
      processRepo user_id history st repo
        = { st with
            cacheHits := st.cacheHits + 1,
            totalAdditions := st.totalAdditions + e.additions,
            totalDeletions := st.totalDeletions + e.deletions })
    ∧ ((∀ e, cacheLookup st.cache repo.nameWithOwner = some e →
        e.commitCount ≠ repo.commitCount) →
      processRepo user_id history st repo
        = { st with
            cacheMisses := st.cacheMisses + 1,
            totalAdditions := st.totalAdditions
              + (fetch_loc_for_repo user_id (history repo.nameWithOwner) (0, 0, 0)).1,
            totalDeletions := st.totalDeletions
              + (fetch_loc_for_repo user_id (history repo.nameWithOwner) (0, 0, 0)).2.1,
            cache := cacheInsert st.cache repo.nameWithOwner
              ⟨repo.commitCount,
               (fetch_loc_for_repo user_id (history repo.nameWithOwner) (0, 0, 0)).1,
               (fetch_loc_for_repo user_id (history repo.nameWithOwner) (0, 0, 0)).2.1,
               (fetch_loc_for_repo user_id (history repo.nameWithOwner) (0, 0, 0)).2.2⟩ })
    ∧ (∀ node acc, node.authorUserId ≠ some user_id → locStep user_id acc node = acc) := by
  refine ⟨?_, ?_, ?_⟩
  · intro e he hcc
    simp [processRepo, hfork, he, hcc]
  · intro hmiss
    rcases hl : cacheLookup st.cache repo.nameWithOwner with _ | e
    · simp [processRepo, hfork, hl, missUpdate]
    · simp [processRepo, hfork, hl, hmiss e hl, missUpdate]
  · intro node acc hne
    rcases hnode : node.authorUserId with _ | uid
    · simp [locStep, hnode]
    · have : uid ≠ user_id := fun h => hne (by rw [hnode, h])
      simp [locStep, hnode, this]

theorem processRepo_hit_miss_witness :
    (⟨"o/a", false, 3⟩ : RepoInfo).isFork = false
    ∧ cacheLookup [("o/a", ⟨3, 10, 4, 2⟩)] "o/a" = some ⟨3, 10, 4, 2⟩
    ∧ processRepo "u" (fun _ => []) ⟨0, 0, 0, 0, [("o/a", ⟨3, 10, 4, 2⟩)]⟩ ⟨"o/a", false, 3⟩
      = ⟨1, 0, 10, 4, [("o/a", ⟨3, 10, 4, 2⟩)]⟩ :=
  ⟨rfl, rfl,
    (processRepo_hit_miss "u" (fun _ => []) ⟨0, 0, 0, 0, [("o/a", ⟨3, 10, 4, 2⟩)]⟩
      ⟨"o/a", false, 3⟩ rfl).1 ⟨3, 10, 4, 2⟩ rfl rfl⟩

/-- After a run over repositories with pairwise-distinct names, every
non-fork repository's cache entry matches its current commit count, and the
run's totals equal the sums read back from the final cache. -/
theorem foldl_post (user_id : String) (history : String → List HistoryPage)
    (l : List RepoInfo) (st : LocState)
    (hnd : (l.map RepoInfo.nameWithOwner).Nodup) :
    (∀ r ∈ l, r.isFork = false →
      ∃ e, cacheLookup (l.foldl (processRepo user_id history) st).cache r.nameWithOwner = some e
        ∧ e.commitCount = r.commitCount)
    ∧ (l.foldl (processRepo user_id history) st).totalAdditions
        = st.totalAdditions + sumCachedAdd (l.foldl (processRepo user_id history) st).cache l
    ∧ (l.foldl (processRepo user_id history) st).totalDeletions
        = st.totalDeletions + sumCachedDel (l.foldl (processRepo user_id history) st).cache l := by
  induction l generalizing st with
  | nil => simp [sumCachedAdd, sumCachedDel]
  | cons r t ih =>
    have hnd' : (t.map RepoInfo.nameWithOwner).Nodup := (List.nodup_cons.mp hnd).2
    have hnotin : r.nameWithOwner ∉ t.map RepoInfo.nameWithOwner := (List.nodup_cons.mp hnd).1
    rw [List.foldl_cons]
    obtain ⟨ihA, ihAdd, ihDel⟩ := ih (processRepo user_id history st r) hnd'
    have hframe : cacheLookup
          ((t.foldl (processRepo user_id history) (processRepo user_id history st r)).cache)
          r.nameWithOwner
        = cacheLookup (processRepo user_id history st r).cache r.nameWithOwner :=
      foldl_lookup_frame _ _ _ _ _
        (fun x hx hEq => hnotin (hEq ▸ List.mem_map_of_mem _ hx))
    -- the entry the head repo ends up with, and its contribution to totals
    have hhead : (r.isFork = true ∧ processRepo user_id history st r = st)
        ∨ (r.isFork = false ∧
          ∃ e, cacheLookup (processRepo user_id history st r).cache r.nameWithOwner = some e
            ∧ e.commitCount = r.commitCount
            ∧ (processRepo user_id history st r).totalAdditions
                = st.totalAdditions + e.additions
            ∧ (processRepo user_id history st r).totalDeletions
                = st.totalDeletions + e.deletions) := by
      by_cases hf : r.isFork
      · exact Or.inl ⟨hf, by simp [processRepo, hf]⟩
      · refine Or.inr ⟨by simpa using hf, ?_⟩
        rcases hl : cacheLookup st.cache r.nameWithOwner with _ | e
        · refine ⟨⟨r.commitCount,
              (fetch_loc_for_repo user_id (history r.nameWithOwner) (0, 0, 0)).1,
              (fetch_loc_for_repo user_id (history r.nameWithOwner) (0, 0, 0)).2.1,
              (fetch_loc_for_repo user_id (history r.nameWithOwner) (0, 0, 0)).2.2⟩,
              ?_, rfl, ?_, ?_⟩ <;>
            simp [processRepo, hf, hl, missUpdate, cacheLookup_cacheInsert_self]
        · by_cases hcc : e.commitCount = r.commitCount
          · exact ⟨e, by simp [processRepo, hf, hl, hcc], hcc,
              by simp [processRepo, hf, hl, hcc], by simp [processRepo, hf, hl, hcc]⟩
          · refine ⟨⟨r.commitCount,
                (fetch_loc_for_repo user_id (history r.nameWithOwner) (0, 0, 0)).1,
                (fetch_loc_for_repo user_id (history r.nameWithOwner) (0, 0, 0)).2.1,
                (fetch_loc_for_repo user_id (history r.nameWithOwner) (0, 0, 0)).2.2⟩,
                ?_, rfl, ?_, ?_⟩ <;>
              simp [processRepo, hf, hl, hcc, missUpdate, cacheLookup_cacheInsert_self]
    refine ⟨?_, ?_, ?_⟩
    · intro x hx hxf
      rcases List.mem_cons.mp hx with rfl | hx'
      · rcases hhead with ⟨hf, _⟩ | ⟨_, e, he, hcc, _⟩
        · rw [hxf] at hf; cases hf
        · exact ⟨e, hframe.trans he, hcc⟩
      · exact ihA x hx' hxf
    · rw [ihAdd]
      simp only [sumCachedAdd, List.map_cons, List.sum_cons]
      rcases hhead with ⟨hf, hst⟩ | ⟨hf, e, he, _, hadd, _⟩
      · rw [hst]
        simp [cachedAdd, hf]
      · have hce : cachedAdd
            ((t.foldl (processRepo user_id history) (processRepo user_id history st r)).cache) r
            = e.additions := by
          simp [cachedAdd, hf, hframe.trans he]
        rw [hce, hadd]
        omega
    · rw [ihDel]
      simp only [sumCachedDel, List.map_cons, List.sum_cons]
      rcases hhead with ⟨hf, hst⟩ | ⟨hf, e, he, _, _, hdel⟩
      · rw [hst]
        simp [cachedDel, hf]
      · have hce : cachedDel
            ((t.foldl (processRepo user_id history) (processRepo user_id history st r)).cache) r
            = e.deletions := by
          simp [cachedDel, hf, hframe.trans he]
        rw [hce, hdel]
        omega

/-- A run in which every non-fork repository already has a matching cache
entry is all hits: the cache is untouched, no misses occur, and the totals
are the sums read from the starting cache. -/
theorem foldl_allhit (user_id : String) (history : String → List HistoryPage)
    (l : List RepoInfo) (st : LocState)
    (h : ∀ r ∈ l, r.isFork = false →
      ∃ e, cacheLookup st.cache r.nameWithOwner = some e ∧ e.commitCount = r.commitCount) :
    (l.foldl (processRepo user_id history) st).cache = st.cache
    ∧ (l.foldl (processRepo user_id history) st).cacheHits
        = st.cacheHits + (l.filter (fun r => !r.isFork)).length
    ∧ (l.foldl (processRepo user_id history) st).cacheMisses = st.cacheMisses
    ∧ (l.foldl (processRepo user_id history) st).totalAdditions
        = st.totalAdditions + sumCachedAdd st.cache l
    ∧ (l.foldl (processRepo user_id history) st).totalDeletions
        = st.totalDeletions + sumCachedDel st.cache l := by
  induction l generalizing st with
  | nil => simp [sumCachedAdd, sumCachedDel]
  | cons r t ih =>
    rw [List.foldl_cons]
    by_cases hf : r.isFork
    · have hst : processRepo user_id history st r = st := by simp [processRepo, hf]
      rw [hst]
      obtain ⟨c1, c2, c3, c4, c5⟩ := ih st (fun x hx => h x (List.mem_cons_of_mem _ hx))
      refine ⟨c1, ?_, c3, ?_, ?_⟩
      · rw [c2]
        simp [List.filter_cons, hf]
      · rw [c4]
        simp [sumCachedAdd, cachedAdd, hf]
      · rw [c5]
        simp [sumCachedDel, cachedDel, hf]
    · obtain ⟨e, he, hcc⟩ := h r (List.mem_cons_self _ _) (by simpa using hf)
      have hst : processRepo user_id history st r
          = { st with
              cacheHits := st.cacheHits + 1,
              totalAdditions := st.totalAdditions + e.additions,
              totalDeletions := st.totalDeletions + e.deletions } := by
        simp [processRepo, hf, he, hcc]
      rw [hst]
      obtain ⟨c1, c2, c3, c4, c5⟩ := ih
        { st with
          cacheHits := st.cacheHits + 1,
          totalAdditions := st.totalAdditions + e.additions,
          totalDeletions := st.totalDeletions + e.deletions }
        (fun x hx hxf => h x (List.mem_cons_of_mem _ hx) hxf)
      have hf' : r.isFork = false := by simpa using hf
      refine ⟨c1, ?_, c3, ?_, ?_⟩
      · rw [c2]
        show st.cacheHits + 1 + _ = st.cacheHits + _
        simp only [List.filter_cons, hf', Bool.not_false, if_true, List.length_cons]
        omega
      · rw [c4]
        show st.totalAdditions + e.additions + _ = st.totalAdditions + _
        simp only [sumCachedAdd, List.map_cons, List.sum_cons, cachedAdd, hf', he, if_false,
          Bool.false_eq_true]
        omega
      · rw [c5]
        show st.totalDeletions + e.deletions + _ = st.totalDeletions + _
        simp only [sumCachedDel, List.map_cons, List.sum_cons, cachedDel, hf', he, if_false,
          Bool.false_eq_true]
        omega

/-- C2: with identical remote data (and the API's invariant that repository
full names are distinct), a second run of `fetch_loc_with_cache` returns the
same totals as the first, leaves the persisted cache exactly as the first
run wrote it, and counts every non-fork repository as a cache hit (no
misses). -/
theorem fetch_loc_with_cache_idempotent (env : LocEnv) (uid : String) (cache0 : Cache)
    (hu : env.userId = some uid)
    (hnd : ((fetch_repos_with_commits env.repoPages).map RepoInfo.nameWithOwner).Nodup) :
    (fetch_loc_with_cache true env (fetch_loc_with_cache true env cache0).2).1
      = (fetch_loc_with_cache true env cache0).1
    ∧ (fetch_loc_with_cache true env (fetch_loc_with_cache true env cache0).2).2
      = (fetch_loc_with_cache true env cache0).2
    ∧ (runLoc uid env (fetch_loc_with_cache true env cache0).2).cacheHits
      = ((fetch_repos_with_commits env.repoPages).filter (fun r => !r.isFork)).length
    ∧ (runLoc uid env (fetch_loc_with_cache true env cache0).2).cacheMisses = 0 := by
  have hform : ∀ c : Cache, fetch_loc_with_cache true env c
      = (((runLoc uid env c).totalAdditions, (runLoc uid env c).totalDeletions),
          (runLoc uid env c).cache) := by
    intro c
    simp [fetch_loc_with_cache, hu]
  obtain ⟨post1, postA, postD⟩ :=
    foldl_post uid env.history (fetch_repos_with_commits env.repoPages)
      ⟨0, 0, 0, 0, cache0⟩ hnd
  obtain ⟨a1, a2, a3, a4, a5⟩ :=
    foldl_allhit uid env.history (fetch_repos_with_commits env.repoPages)
      ⟨0, 0, 0, 0, (runLoc uid env cache0).cache⟩ (fun x hx hxf => post1 x hx hxf)
  simp only at postA postD a1 a2 a3 a4 a5
  simp only [hform]
  simp only [runLoc]
  refine ⟨?_, ?_, ?_, ?_⟩
  · simp only [runLoc] at a4 a5
    rw [a4, a5, postA, postD]
  · simp only [runLoc] at a1
    exact a1
  · simp only [runLoc] at a2
    rw [a2]
    exact Nat.zero_add _
  · simp only [runLoc] at a3
    exact a3

theorem fetch_loc_with_cache_idempotent_witness :
    (⟨some "u",
        [⟨[⟨"o/a", false, some 2⟩], ⟨none, false⟩⟩],
        fun _ => [⟨[⟨7, 3, some "u"⟩, ⟨1, 1, some "v"⟩], ⟨none, false⟩⟩]⟩ : LocEnv).userId
      = some "u"
    ∧ ((fetch_repos_with_commits
        [⟨[⟨"o/a", false, some 2⟩], ⟨none, false⟩⟩]).map RepoInfo.nameWithOwner).Nodup
    ∧ (fetch_loc_with_cache true
        ⟨some "u", [⟨[⟨"o/a", false, some 2⟩], ⟨none, false⟩⟩],
          fun _ => [⟨[⟨7, 3, some "u"⟩, ⟨1, 1, some "v"⟩], ⟨none, false⟩⟩]⟩
        (fetch_loc_with_cache true
          ⟨some "u", [⟨[⟨"o/a", false, some 2⟩], ⟨none, false⟩⟩],
            fun _ => [⟨[⟨7, 3, some "u"⟩, ⟨1, 1, some "v"⟩], ⟨none, false⟩⟩]⟩ []).2).1
      = (fetch_loc_with_cache true
          ⟨some "u", [⟨[⟨"o/a", false, some 2⟩], ⟨none, false⟩⟩],
            fun _ => [⟨[⟨7, 3, some "u"⟩, ⟨1, 1, some "v"⟩], ⟨none, false⟩⟩]⟩ []).1 :=
  ⟨rfl, by decide,
    (fetch_loc_with_cache_idempotent
      ⟨some "u", [⟨[⟨"o/a", false, some 2⟩], ⟨none, false⟩⟩],
        fun _ => [⟨[⟨7, 3, some "u"⟩, ⟨1, 1, some "v"⟩], ⟨none, false⟩⟩]⟩
      "u" [] rfl (by decide)).1⟩

/-! ### Section-membership lemmas for `build_info_lines`

A section header `make_section t` starts with two blanks and a `─`; every
`make_line` starts with two blanks and its label's first character, and the
shell header line starts with `$`, so a section header can never collide
with them, whatever the configuration values are. -/

theorem make_section_ne_make_line (t label value : String) (il : Bool) (c : Char)
    (cs : List Char) (h : label.data = c :: cs) (hne : c ≠ '─') :
    make_section t ≠ make_line label value il := by
  intro he
  have hd := congrArg String.data he
  simp only [make_section, make_line, String.data_append] at hd
  rw [h] at hd
  simp only [List.cons_append, List.append_assoc, List.nil_append] at hd
  have h2 := congrArg (fun l : List Char => l[2]?) hd
  simp only [List.getElem?_cons_succ, List.getElem?_cons_zero] at h2
  exact hne (Option.some.inj h2).symm

theorem make_section_ne_headerLine (t h : String) : make_section t ≠ "$ " ++ h := by
  intro he
  have hd := congrArg String.data he
  simp only [make_section, String.data_append] at hd
  simp only [List.cons_append, List.append_assoc, List.nil_append] at hd
  have h2 := congrArg (fun l : List Char => l[0]?) hd
  simp only [List.getElem?_cons_zero] at h2
  exact absurd (Option.some.inj h2) (by decide)

theorem data_repChar (n : Nat) (c : Char) : (repChar n c).data = List.replicate n c := rfl

theorem make_section_ne_topBorder (t : String) : make_section t ≠ topBorder := by
  intro he
  have hd := congrArg String.data he
  simp only [make_section, topBorder, String.data_append] at hd
  simp only [List.cons_append, List.append_assoc, List.nil_append] at hd
  have h2 := congrArg (fun l : List Char => l[0]?) hd
  simp only [List.getElem?_cons_zero] at h2
  exact absurd (Option.some.inj h2) (by decide)

theorem make_section_ne_bottomBorder (t : String) : make_section t ≠ bottomBorder := by
  intro he
  have hd := congrArg String.data he
  simp only [make_section, bottomBorder, String.data_append] at hd
  simp only [List.cons_append, List.append_assoc, List.nil_append] at hd
  have h2 := congrArg (fun l : List Char => l[0]?) hd
  simp only [List.getElem?_cons_zero] at h2
  exact absurd (Option.some.inj h2) (by decide)

theorem make_section_ne_make_empty (t : String) : make_section t ≠ make_empty := by
  intro he
  have hd := congrArg String.data he
  simp only [make_section, make_empty, String.data_append, data_repChar] at hd
  rw [show List.replicate 50 ' ' = ' ' :: List.replicate 49 ' ' from rfl] at hd
  simp only [List.cons_append, List.append_assoc, List.nil_append] at hd
  have h2 := congrArg (fun l : List Char => l[2]?) hd
  simp only [List.getElem?_cons_succ, List.getElem?_cons_zero] at h2
  exact absurd (Option.some.inj h2) (by decide)

theorem mem_if_singleton {α : Type} {c : Prop} [Decidable c] {x y : α}
    (h : x ∈ if c then [y] else ([] : List α)) : x = y := by
  by_cases hc : c
  · rw [if_pos hc] at h
    exact List.mem_singleton.mp h
  · rw [if_neg hc] at h
    cases h

theorem make_section_notin_basicLines (t : String) (cfg : Config) (d : Date) :
    make_section t ∉ basicLines cfg d := by
  intro hmem
  simp only [basicLines, List.mem_append] at hmem
  rcases hmem with ((h | h) | h) | h
  · exact absurd (mem_if_singleton h)
      (make_section_ne_make_line t "Host" _ false 'H' _ rfl (by decide))
  · exact absurd (mem_if_singleton h)
      (make_section_ne_make_line t "Kernel" _ false 'K' _ rfl (by decide))
  · exact absurd (mem_if_singleton h)
      (make_section_ne_make_line t "Uptime" _ false 'U' _ rfl (by decide))
  · exact absurd (mem_if_singleton h)
      (make_section_ne_make_line t "Location" _ false 'L' _ rfl (by decide))

theorem make_section_notin_langLines (t : String) (cfg : Config) :
    make_section t ∉ langLines cfg := by
  intro hmem
  simp only [langLines, List.mem_append] at hmem
  rcases hmem with (h | h) | h
  · exact absurd (mem_if_singleton h)
      (make_section_ne_make_line t "Languages.Code" _ false 'L' _ rfl (by decide))
  · exact absurd (mem_if_singleton h)
      (make_section_ne_make_line t "Languages.Markup" _ false 'L' _ rfl (by decide))
  · exact absurd (mem_if_singleton h)
      (make_section_ne_make_line t "Languages.Human" _ false 'L' _ rfl (by decide))

theorem make_section_notin_stackLines (t : String) (cfg : Config) :
    make_section t ∉ stackLines cfg := by
  intro hmem
  simp only [stackLines, List.mem_append] at hmem
  rcases hmem with ((h | h) | h) | h
  · exact absurd (mem_if_singleton h)
      (make_section_ne_make_line t "Backend" _ false 'B' _ rfl (by decide))
  · exact absurd (mem_if_singleton h)
      (make_section_ne_make_line t "Frontend" _ false 'F' _ rfl (by decide))
  · exact absurd (mem_if_singleton h)
      (make_section_ne_make_line t "Database" _ false 'D' _ rfl (by decide))
  · exact absurd (mem_if_singleton h)
      (make_section_ne_make_line t "Infra" _ false 'I' _ rfl (by decide))

theorem make_section_notin_contactLines (t : String) (cfg : Config) :
    make_section t ∉ contactLines cfg := by
  intro hmem
  simp only [contactLines, List.mem_append] at hmem
  rcases hmem with (h | h) | h
  · exact absurd (mem_if_singleton h)
      (make_section_ne_make_line t "Website" _ true 'W' _ rfl (by decide))
  · exact absurd (mem_if_singleton h)
      (make_section_ne_make_line t "Email" _ true 'E' _ rfl (by decide))
  · exact absurd (mem_if_singleton h)
      (make_section_ne_make_line t "LinkedIn" _ true 'L' _ rfl (by decide))

theorem make_section_mem_statsBlock (t : String) (stats : Stats)
    (hmem : make_section t ∈ statsBlock stats) :
    make_section t = make_section "GitHub Stats" := by
  simp only [statsBlock, List.mem_cons, List.not_mem_nil, or_false] at hmem
  rcases hmem with h | h | h | h | h | h | h
  · exact h
  · exact absurd h (make_section_ne_make_line t "Repos" _ false 'R' _ rfl (by decide))
  · exact absurd h (make_section_ne_make_line t "Commits" _ false 'C' _ rfl (by decide))
  · exact absurd h (make_section_ne_make_line t "PRs" _ false 'P' _ rfl (by decide))
  · exact absurd h (make_section_ne_make_line t "Stars" _ false 'S' _ rfl (by decide))
  · exact absurd h (make_section_ne_make_line t "Followers" _ false 'F' _ rfl (by decide))
  · exact absurd h (make_section_ne_make_line t "Lines of Code" _ false 'L' _ rfl (by decide))

theorem make_section_mem_langBlock (t : String) (cfg : Config)
    (hne2 : make_section t ≠ make_empty)
    (hmem : make_section t ∈ langBlock cfg) :
    make_section t = make_section "Languages" := by
  rw [langBlock] at hmem
  split at hmem
  · cases hmem
  · rcases List.mem_cons.mp hmem with h | h
    · exact h
    · rcases List.mem_append.mp h with h | h
      · exact absurd h (make_section_notin_langLines t cfg)
      · exact absurd (List.mem_singleton.mp h) hne2

theorem make_section_mem_stackBlock (t : String) (cfg : Config)
    (hne2 : make_section t ≠ make_empty)
    (hmem : make_section t ∈ stackBlock cfg) :
    make_section t = make_section "Stack" := by
  rw [stackBlock] at hmem
  split at hmem
  · cases hmem
  · rcases List.mem_cons.mp hmem with h | h
    · exact h
    · rcases List.mem_append.mp h with h | h
      · exact absurd h (make_section_notin_stackLines t cfg)
      · exact absurd (List.mem_singleton.mp h) hne2

theorem make_section_mem_contactBlock (t : String) (cfg : Config)
    (hne2 : make_section t ≠ make_empty)
    (hmem : make_section t ∈ contactBlock cfg) :
    make_section t = make_section "Contact" := by
  rw [contactBlock] at hmem
  split at hmem
  · cases hmem
  · rcases List.mem_cons.mp hmem with h | h
    · exact h
    · rcases List.mem_append.mp h with h | h
      · exact absurd h (make_section_notin_contactLines t cfg)
      · exact absurd (List.mem_singleton.mp h) hne2

/-- Any section header occurring in the full output is the header of one of
the four section blocks. -/
theorem make_section_mem_build (t : String) (cfg : Config) (stats : Stats) (today : Date)
    (hmem : make_section t ∈ build_info_lines cfg stats today) :
    make_section t ∈ langBlock cfg ∨ make_section t ∈ stackBlock cfg
    ∨ make_section t ∈ contactBlock cfg ∨ make_section t = make_section "GitHub Stats" := by
  simp only [build_info_lines, List.mem_append, List.mem_cons, List.not_mem_nil,
    or_false] at hmem
  rcases hmem with (((((((h | h | h) | h) | h) | h) | h) | h) | h) | h | h
  · exact absurd h (make_section_ne_headerLine t cfg.header)
  · exact absurd h (make_section_ne_topBorder t)
  · exact absurd h (make_section_ne_make_empty t)
  · exact absurd h (make_section_notin_basicLines t cfg today)
  · exact absurd h (make_section_ne_make_empty t)
  · exact Or.inl h
  · exact Or.inr (Or.inl h)
  · exact Or.inr (Or.inr (Or.inl h))
  · exact Or.inr (Or.inr (Or.inr (make_section_mem_statsBlock t stats h)))
  · exact absurd h (make_section_ne_make_empty t)
  · exact absurd h (make_section_ne_bottomBorder t)

theorem langLines_eq_nil_iff (cfg : Config) :
    langLines cfg = [] ↔ pyTruthy cfg.languages.code = false
      ∧ pyTruthy cfg.languages.markup = false ∧ pyTruthy cfg.languages.human = false := by
  cases hc : pyTruthy cfg.languages.code <;> cases hm : pyTruthy cfg.languages.markup <;>
    cases hh : pyTruthy cfg.languages.human <;> simp [langLines, hc, hm, hh]

theorem stackLines_eq_nil_iff (cfg : Config) :
    stackLines cfg = [] ↔ pyTruthy cfg.stack.backend = false
      ∧ pyTruthy cfg.stack.frontend = false ∧ pyTruthy cfg.stack.database = false
      ∧ pyTruthy cfg.stack.infra = false := by
  cases hb : pyTruthy cfg.stack.backend <;> cases hf : pyTruthy cfg.stack.frontend <;>
    cases hd : pyTruthy cfg.stack.database <;> cases hi : pyTruthy cfg.stack.infra <;>
      simp [stackLines, hb, hf, hd, hi]

theorem contactLines_eq_nil_iff (cfg : Config) :
    contactLines cfg = []
      ↔ (pyTruthy cfg.contact.website.url && pyTruthy cfg.contact.website.label) = false
        ∧ (pyTruthy cfg.contact.email.url && pyTruthy cfg.contact.email.label) = false
        ∧ (pyTruthy cfg.contact.linkedin.url && pyTruthy cfg.contact.linkedin.label) = false := by
  cases hw : pyTruthy cfg.contact.website.url && pyTruthy cfg.contact.website.label <;>
    cases he : pyTruthy cfg.contact.email.url && pyTruthy cfg.contact.email.label <;>
      cases hl : pyTruthy cfg.contact.linkedin.url && pyTruthy cfg.contact.linkedin.label <;>
        simp [contactLines, hw, he, hl]

theorem basicLines_eq_nil_iff (cfg : Config) (d : Date) :
    basicLines cfg d = [] ↔ pyTruthy cfg.host = false ∧ pyTruthy cfg.kernel = false
      ∧ pyTruthy cfg.birthday = false ∧ pyTruthy cfg.location = false := by
  cases h1 : pyTruthy cfg.host <;> cases h2 : pyTruthy cfg.kernel <;>
    cases h3 : pyTruthy cfg.birthday <;> cases h4 : pyTruthy cfg.location <;>
      simp [basicLines, h1, h2, h3, h4]

theorem langBlock_eq_nil_iff (cfg : Config) : langBlock cfg = [] ↔ langLines cfg = [] := by
  rw [langBlock]
  split
  · simp [*]
  · simp [*]

theorem stackBlock_eq_nil_iff (cfg : Config) : stackBlock cfg = [] ↔ stackLines cfg = [] := by
  rw [stackBlock]
  split
  · simp [*]
  · simp [*]

theorem contactBlock_eq_nil_iff (cfg : Config) :
    contactBlock cfg = [] ↔ contactLines cfg = [] := by
  rw [contactBlock]
  split
  · simp [*]
  · simp [*]

theorem header_mem_block_of_ne_nil_lang (cfg : Config) (h : langLines cfg ≠ []) :
    make_section "Languages" ∈ langBlock cfg := by
  rw [langBlock, if_neg h]
  exact List.mem_cons_self _ _

theorem header_mem_block_of_ne_nil_stack (cfg : Config) (h : stackLines cfg ≠ []) :
    make_section "Stack" ∈ stackBlock cfg := by
  rw [stackBlock, if_neg h]
  exact List.mem_cons_self _ _

theorem header_mem_block_of_ne_nil_contact (cfg : Config) (h : contactLines cfg ≠ []) :
    make_section "Contact" ∈ contactBlock cfg := by
  rw [contactBlock, if_neg h]
  exact List.mem_cons_self _ _

/-- C9: optional sections appear exactly when they have data.  Each
conditional block is empty precisely when all of its source configuration
values are missing or empty, and each of the Languages / Stack / Contact
section headers occurs in the output exactly when at least one of that
section's source values is truthy (for a contact link: both its url and its
label). -/
theorem build_info_lines_sections_iff (cfg : Config) (stats : Stats) (today : Date) :
    (basicLines cfg today = [] ↔ pyTruthy cfg.host = false ∧ pyTruthy cfg.kernel = false
      ∧ pyTruthy cfg.birthday = false ∧ pyTruthy cfg.location = false)
    ∧ (langBlock cfg = [] ↔ pyTruthy cfg.languages.code = false
      ∧ pyTruthy cfg.languages.markup = false ∧ pyTruthy cfg.languages.human = false)
    ∧ (stackBlock cfg = [] ↔ pyTruthy cfg.stack.backend = false
      ∧ pyTruthy cfg.stack.frontend = false ∧ pyTruthy cfg.stack.database = false
      ∧ pyTruthy cfg.stack.infra = false)
    ∧ (contactBlock cfg = []
      ↔ (pyTruthy cfg.contact.website.url && pyTruthy cfg.contact.website.label) = false
        ∧ (pyTruthy cfg.contact.email.url && pyTruthy cfg.contact.email.label) = false
        ∧ (pyTruthy cfg.contact.linkedin.url && pyTruthy cfg.contact.linkedin.label) = false)
    ∧ (make_section "Languages" ∈ build_info_lines cfg stats today
      ↔ ¬(pyTruthy cfg.languages.code = false ∧ pyTruthy cfg.languages.markup = false
          ∧ pyTruthy cfg.languages.human = false))
    ∧ (make_section "Stack" ∈ build_info_lines cfg stats today
      ↔ ¬(pyTruthy cfg.stack.backend = false ∧ pyTruthy cfg.stack.frontend = false
          ∧ pyTruthy cfg.stack.database = false ∧ pyTruthy cfg.stack.infra = false))
    ∧ (make_section "Contact" ∈ build_info_lines cfg stats today
      ↔ ¬((pyTruthy cfg.contact.website.url && pyTruthy cfg.contact.website.label) = false
          ∧ (pyTruthy cfg.contact.email.url && pyTruthy cfg.contact.email.label) = false
          ∧ (pyTruthy cfg.contact.linkedin.url && pyTruthy cfg.contact.linkedin.label)
              = false)) := by
  refine ⟨basicLines_eq_nil_iff cfg today,
    (langBlock_eq_nil_iff cfg).trans (langLines_eq_nil_iff cfg),
    (stackBlock_eq_nil_iff cfg).trans (stackLines_eq_nil_iff cfg),
    (contactBlock_eq_nil_iff cfg).trans (contactLines_eq_nil_iff cfg), ?_, ?_, ?_⟩
  · constructor
    · intro hmem hall
      rcases make_section_mem_build "Languages" cfg stats today hmem with h | h | h | h
      · rw [langBlock, if_pos ((langLines_eq_nil_iff cfg).mpr hall)] at h
        cases h
      · exact absurd (make_section_mem_stackBlock _ cfg (by decide) h) (by decide)
      · exact absurd (make_section_mem_contactBlock _ cfg (by decide) h) (by decide)
      · exact absurd h (by decide)
    · intro hsome
      have hne : langLines cfg ≠ [] := fun h => hsome ((langLines_eq_nil_iff cfg).mp h)
      have hmem := header_mem_block_of_ne_nil_lang cfg hne
      simp only [build_info_lines, List.mem_append]
      tauto
  · constructor
    · intro hmem hall
      rcases make_section_mem_build "Stack" cfg stats today hmem with h | h | h | h
      · exact absurd (make_section_mem_langBlock _ cfg (by decide) h) (by decide)
      · rw [stackBlock, if_pos ((stackLines_eq_nil_iff cfg).mpr hall)] at h
        cases h
      · exact absurd (make_section_mem_contactBlock _ cfg (by decide) h) (by decide)
      · exact absurd h (by decide)
    · intro hsome
      have hne : stackLines cfg ≠ [] := fun h => hsome ((stackLines_eq_nil_iff cfg).mp h)
      have hmem := header_mem_block_of_ne_nil_stack cfg hne
      simp only [build_info_lines, List.mem_append]
      tauto
  · constructor
    · intro hmem hall
      rcases make_section_mem_build "Contact" cfg stats today hmem with h | h | h | h
      · exact absurd (make_section_mem_langBlock _ cfg (by decide) h) (by decide)
      · exact absurd (make_section_mem_stackBlock _ cfg (by decide) h) (by decide)
      · rw [contactBlock, if_pos ((contactLines_eq_nil_iff cfg).mpr hall)] at h
        cases h
      · exact absurd h (by decide)
    · intro hsome
      have hne : contactLines cfg ≠ [] := fun h => hsome ((contactLines_eq_nil_iff cfg).mp h)
      have hmem := header_mem_block_of_ne_nil_contact cfg hne
      simp only [build_info_lines, List.mem_append]
      tauto

end GenReadme
